import Mathlib

/-!
Verification of the Knowledge Retrieval and Context Assembly Engine of the
beanspout/2025-beanbot repository.

The Go sources are shallowly embedded: Go strings are modelled as `List Char`
(Go indexes bytes; the corpus and all string constants of the program are
ASCII, where bytes and characters coincide), Go maps are modelled as
association lists iterated in list order (Go map iteration order is
unspecified; the theorems proved here hold for every order, i.e. for every
association list), and file-system / external-library reads (os.ReadFile,
the pdf, docx and OLE libraries) are modelled as oracle inputs carried by the
file values, since their results are I/O.  All pure string manipulation from
the source (internal/knowledge/database.go and internal/ui/app.go) is
translated function by function.
-/

namespace Beanbot

set_option maxRecDepth 4000

/-- Go strings, as character lists. -/
abbrev Str := List Char

/-- Characters treated as white space, after Go `unicode.IsSpace`
(ASCII spaces plus NEL and NBSP). -/
def goIsSpace (c : Char) : Bool :=
  c = ' ' || c = Char.ofNat 9 || c = Char.ofNat 10 || c = Char.ofNat 11 ||
  c = Char.ofNat 12 || c = Char.ofNat 13 || c = Char.ofNat 133 || c = Char.ofNat 160

/-- Go `strings.ToLower` (character-wise case folding; ASCII in this corpus). -/
def goToLower (s : Str) : Str := s.map Char.toLower

/-- Go `strings.Contains s sub`: `sub` occurs inside `s`. -/
def goContains (s sub : Str) : Bool := decide (sub <:+: s)

/-- Go `strings.HasPrefix`. -/
def goStartsWith (s pre : Str) : Bool := decide (pre <+: s)

/-- Go `strings.HasSuffix`. -/
def goEndsWith (s suf : Str) : Bool := decide (suf <:+ s)

/-- Go `strings.TrimPrefix`. -/
def goTrimLeading (s pre : Str) : Str := if pre <+: s then s.drop pre.length else s

/-- Go `strings.TrimSuffix`. -/
def goTrimTrailing (s suf : Str) : Str :=
  if suf <:+ s then s.take (s.length - suf.length) else s

/-- Go `strings.TrimSpace`. -/
def goTrimSpace (s : Str) : Str :=
  ((s.dropWhile goIsSpace).reverse.dropWhile goIsSpace).reverse

/-- Go `strings.Fields`: the maximal runs of non-space characters. -/
def goFields (s : Str) : List Str :=
  (List.splitOnP goIsSpace s).filter (fun t => !t.isEmpty)

/-- Splits off the part of `s` before the leftmost occurrence of `sep`,
together with the remainder after that occurrence (`none` when `sep` does not
occur).  This is the loop body of Go `strings.Split` / `strings.Index`. -/
def firstSplit (sep : Str) : Str → Option (Str × Str)
  | [] => if sep = [] then some ([], []) else none
  | c :: t =>
    if sep <+: (c :: t) then some ([], (c :: t).drop sep.length)
    else (firstSplit sep t).map (fun p => (c :: p.1, p.2))

/-- Go `strings.Index`, with `none` for Go's `-1`. -/
def goIndex (s sub : Str) : Option Nat := (firstSplit sub s).map (fun p => p.1.length)

/-- Fuel-driven splitting loop; `goSplit` supplies enough fuel that the fuel
is never exhausted (each removed separator consumes at least one character). -/
def goSplitF (sep : Str) : Nat → Str → List Str
  | 0, s => [s]
  | fuel + 1, s =>
    match firstSplit sep s with
    | none => [s]
    | some (a, b) => a :: goSplitF sep fuel b

/-- Go `strings.Split`.  For an empty separator Go splits into single
characters. -/
def goSplit (sep s : Str) : List Str :=
  if sep = [] then s.map (fun c => [c]) else goSplitF sep s.length s

/-- Go `strings.SplitN` for `n ≥ 0` (the program only uses `n = 3`). -/
def goSplitN (sep : Str) : Nat → Str → List Str
  | 0, _ => []
  | 1, s => [s]
  | n + 2, s =>
    match firstSplit sep s with
    | none => [s]
    | some (a, b) => a :: goSplitN sep (n + 1) b

/-- Go `strings.Count`: non-overlapping occurrences (for a non-empty pattern,
one less than the number of pieces `strings.Split` produces). -/
def goCount (s sub : Str) : Nat :=
  if sub = [] then s.length + 1 else (goSplit sub s).length - 1

/-- Go `strings.ReplaceAll` (for a non-empty pattern: split and re-join). -/
def goReplaceAll (s old new : Str) : Str :=
  if old = [] then new ++ (s.map (fun c => [c] ++ new)).flatten
  else List.intercalate new (goSplit old s)

/-- Decimal rendering of a natural number, for Go's `%d`. -/
def natStr (n : Nat) : Str := (Nat.repr n).toList

/-- Go map read `m[k]` (yields the empty string when `k` is absent); the
association list is searched front-first, matching `insertA` below. -/
def mapGet (m : List (Str × Str)) (k : Str) : Str :=
  ((m.find? (fun p => decide (p.1 = k))).map Prod.snd).getD []

/-- Go map write `m[k] = v`: the new binding shadows older ones. -/
def insertA (m : List (Str × Str)) (k v : Str) : List (Str × Str) := (k, v) :: m

/-- Numbered rendering `"%d. %s\n"` of a list of steps, 1-based, as in the
error-code and common-issue tiers. -/
def numbered (steps : List Str) : Str :=
  (steps.enum.map (fun p => natStr (p.1 + 1) ++ ". ".toList ++ p.2 ++ "\n".toList)).flatten

theorem goContains_iff (s sub : Str) : goContains s sub = true ↔ sub <:+: s := by
  simp [goContains]

theorem goContains_mono {a b t : Str} (h : goContains a t = true) (hab : a <:+: b) :
    goContains b t = true := by
  rw [goContains_iff] at h ⊢
  exact h.trans hab

theorem goToLower_mono {a b : Str} (h : a <:+: b) : goToLower a <:+: goToLower b :=
  h.map Char.toLower

theorem goToLower_length (s : Str) : (goToLower s).length = s.length := by
  simp [goToLower]

theorem firstSplit_isSome_iff (sep : Str) (hsep : sep ≠ []) :
    ∀ s : Str, (firstSplit sep s).isSome = true ↔ sep <:+: s := by
  intro s
  induction s with
  | nil =>
    rw [firstSplit, if_neg hsep]
    simp only [Option.isSome_none, Bool.false_eq_true, false_iff]
    intro h
    exact hsep (List.eq_nil_of_infix_nil h)
  | cons c t ih =>
    by_cases hp : sep <+: (c :: t)
    · rw [firstSplit, if_pos hp]
      simp only [Option.isSome_some, true_iff]
      exact hp.isInfix
    · rw [firstSplit, if_neg hp]
      simp only [Option.isSome_map']
      rw [ih, List.infix_cons_iff]
      tauto

theorem goSplitF_ne_nil (sep : Str) (fuel : Nat) (s : Str) :
    goSplitF sep fuel s ≠ [] := by
  cases fuel with
  | zero => simp [goSplitF]
  | succ n =>
    simp only [goSplitF]
    cases firstSplit sep s with
    | none => simp
    | some p => simp

theorem goCount_pos_of_contains {s sub : Str} (hsub : sub ≠ [])
    (h : goContains s sub = true) : 0 < goCount s sub := by
  rw [goContains_iff] at h
  have hlen : 0 < s.length := by
    cases s with
    | nil => exact absurd (List.eq_nil_of_infix_nil h) hsub
    | cons a t => simp
  unfold goCount goSplit
  rw [if_neg hsub, if_neg hsub]
  obtain ⟨n, hn⟩ : ∃ n, s.length = n + 1 := ⟨s.length - 1, by omega⟩
  rw [hn]
  have hsome : (firstSplit sub s).isSome = true := (firstSplit_isSome_iff sub hsub s).mpr h
  simp only [goSplitF]
  obtain ⟨⟨a, b⟩, hab⟩ := Option.isSome_iff_exists.mp hsome
  rw [hab]
  have := goSplitF_ne_nil sub n b
  have hpos : 0 < (goSplitF sub n b).length := List.length_pos.mpr this
  simp only [List.length_cons]
  omega

/-- Structured knowledge record `models.ErrorCode`. -/
structure ErrorCode where
  code : Str
  description : Str
  category : Str
  severity : Str
  troubleshootingSteps : List Str
  relatedComponents : List Str
  documentationReference : Str

/-- Structured knowledge record `models.CommonIssue`. -/
structure CommonIssue where
  issue : Str
  symptoms : List Str
  solutions : List Str

/-- The state of `knowledge.KnowledgeDatabase`: structured records plus the
per-kind content maps, the path index and the upload session maps. -/
structure KnowledgeDB where
  errorCodes : List ErrorCode := []
  commonIssues : List CommonIssue := []
  textFiles : List (Str × Str) := []
  pdfContents : List (Str × Str) := []
  wordContents : List (Str × Str) := []
  imageContents : List (Str × Str) := []
  filePaths : List (Str × Str) := []
  userUploads : List (Str × Str) := []
  uploadPaths : List (Str × Str) := []
  uploadTime : List (Str × Nat) := []

/-- The curated keyword list of `IsRelevantContent` (database.go), in source
order, duplicates included. -/
def troubleshootingKeywords : List Str :=
  [ "error", "troubleshoot", "communication", "sensor", "power", "temperature",
    "timeout", "connection", "voltage", "calibration", "cycler", "device",
    "interface", "problem", "issue", "solution", "step", "procedure",
    "check", "verify", "test", "replace", "restart", "configure",
    "lsie", "support", "jira", "ticket", "contact", "help", "official",
    "execution", "standard", "process", "team", "unofficial", "pdf", "file",
    "open", "document", "manual", "guide", "instruction", "setup", "install",
    "software", "hardware", "system", "application", "program", "tool",
    "lsie", "solutionbuilder", "testmanager", "automation", "python", "vcl",
    "channel", "module", "schedule", "display", "data", "logging", "report",
    "security", "configuration", "developer", "api", "scripting", "control",
    "panel", "limit", "alarm", "calculation", "variable", "function",
    "installation", "getting", "started", "how", "use", "managing", "creating",
    "word", "docx", "meeting", "notes", "discussion", "minutes", "agenda",
    "action", "item", "decision", "requirement", "specification", "design",
    "image", "screenshot", "diagram", "flowchart", "picture", "photo",
    "visual", "graphic", "chart", "graph", "interface", "screen", "display",
    "png", "jpg", "jpeg", "bmp", "gif", "tiff", "ocr", "text",
    "btsi", "btsilsie", "battery", "lab", "integration", "testing", "cycler",
    "flash", "firmware", "jenkins", "build", "deploy", "release", "patch",
    "itest", "teststand", "ni", "national", "instruments", "systemlink",
    "grafana", "influx", "influxdb", "telegraf", "pagerduty", "sentry",
    "container", "pack", "cell", "formation", "pulse", "utilization",
    "pxi", "digibox", "com", "port", "serial", "neoVI", "vehicle", "spy",
    "brfm", "communication", "hardware", "troubleshooting", "wsus",
    "artifactory", "python", "wheel", "deployment", "kubernetes", "k8s",
    "sdf", "vpn", "access", "icentral", "ivc", "camera", "relay", "server",
    "hotswap", "replacement", "connectivity", "licensing", "visual", "studio",
    "service", "desk", "confluence", "atlassian", "markdown", "sprint",
    "retrospective", "planning", "bats", "ingestion", "utility", "bdsb",
    "pms", "transfer", "function", "sheet", "ctms", "sls", "flow",
    "engineer", "contractor", "onboard", "keyfreeze", "commander", "loader",
    "gmws", "wbcic", "wallace", "innovation", "center", "vcs", "box",
    "asis", "validation", "win10", "work", "instruction", "track",
    "presentation" ].map String.toList

/-- `KnowledgeDatabase.ContainsAnyKeyword` (database.go): each keyword is
lower-cased, the input is searched as given. -/
def ContainsAnyKeyword (input : Str) (keywords : List Str) : Bool :=
  keywords.any (fun keyword => goContains input (goToLower keyword))

/-- `KnowledgeDatabase.IsRelevantContent` (database.go): the high-recall
relevance scorer. -/
def IsRelevantContent (userInput content : Str) : Bool :=
  let lowerContent := goToLower content
  let lowerInput := goToLower userInput
  let keywords := goFields lowerInput
  let relevantKeywords := keywords.countP (fun k => 2 < k.length && goContains lowerContent k)
  let keywordMatches := troubleshootingKeywords.countP
    (fun k => goContains lowerInput k && goContains lowerContent k)
  decide (1 ≤ relevantKeywords) || decide (0 < keywordMatches) ||
  decide (lowerInput.length < 10) ||
  goContains lowerContent ( "troubleshoot".toList) ||
  goContains lowerContent ( "solution".toList) ||
  goContains lowerContent ( "procedure".toList) ||
  (goContains lowerContent ( "error".toList) && decide (50 < lowerContent.length))

/-- `extractDrawIOContent` (database.go): collects decoded `value="..."`
attribute texts longer than 5 characters after trimming. -/
def extractDrawIOContent (xmlContent : Str) : Str :=
  ((goSplit ( "\n".toList) xmlContent).map (fun line =>
    if goContains line ( "value=".toList) then
      match goIndex line ( "value=\"".toList) with
      | none => []
      | some idx =>
        let start := idx + 7
        match goIndex (line.drop start) ( "\"".toList) with
        | none => []
        | some stop =>
          let text := (line.drop start).take stop
          let text := goReplaceAll text ( "&quot;".toList) ( "\"".toList)
          let text := goReplaceAll text ( "&amp;".toList) ( "&".toList)
          let text := goReplaceAll text ( "&lt;".toList) ( "<".toList)
          let text := goReplaceAll text ( "&gt;".toList) ( ">".toList)
          let text := goReplaceAll text ( "&#xa;".toList) ( "\n".toList)
          if 5 < (goTrimSpace text).length then text ++ "\n".toList else []
    else [])).flatten

/-- `extractHTMLContent` (database.go): line-oriented extraction that skips
structural lines, keeps `<title>` pairs and keyword-bearing lines of cleaned
length strictly between 20 and 500. -/
def extractHTMLContent (htmlContent : Str) : Str :=
  ((goSplit ( "\n".toList) htmlContent).map (fun rawLine =>
    let line := goTrimSpace rawLine
    if line = [] || goStartsWith line ( "<!".toList) ||
        goStartsWith line ( "<html".toList) || goStartsWith line ( "<head".toList) ||
        goStartsWith line ( "<meta".toList) || goStartsWith line ( "<link".toList) ||
        goStartsWith line ( "<script".toList) || goStartsWith line ( "<style".toList) then []
    else
      (if goContains line ( "<title>".toList) && goContains line ( "</title>".toList) then
        let start := (goIndex line ( "<title>".toList)).getD 0 + 7
        let stop := (goIndex line ( "</title>".toList)).getD 0
        if start < stop then
          let title := (line.drop start).take (stop - start)
          if 0 < (goTrimSpace title).length then "Title: ".toList ++ title ++ "\n".toList
          else []
        else []
      else []) ++
      (if goContains line ( "troubleshoot".toList) || goContains line ( "error".toList) ||
          goContains line ( "problem".toList) || goContains line ( "solution".toList) ||
          goContains line ( "step".toList) || goContains line ( "issue".toList) then
        let cleaned := goReplaceAll line ( "&quot;".toList) ( "\"".toList)
        let cleaned := goReplaceAll cleaned ( "&amp;".toList) ( "&".toList)
        let cleaned := goReplaceAll cleaned ( "\\n".toList) ( "\n".toList)
        if 20 < cleaned.length && cleaned.length < 500 then cleaned ++ "\n".toList else []
      else []))).flatten

/-- `extractWordContent` (database.go).  The docx library read is an oracle:
`Except.error e` models a failed `docx.ReadDocxFile` (yielding the
`"Error reading Word document …"` sentinel), `Except.ok raw` models the raw
`GetContent` text, which is then cleaned as in the source. -/
def extractWordContent (filePath : Str) (wordRaw : Except Str Str) : Str :=
  match wordRaw with
  | .error e => "Error reading Word document ".toList ++ filePath ++ ": ".toList ++ e
  | .ok paragraphs =>
    let cleanContent := goTrimSpace paragraphs
    let cleanContent := goReplaceAll cleanContent ( "  ".toList) ( " ".toList)
    let cleanContent := goReplaceAll cleanContent ( "\n\n\n".toList) ( "\n\n".toList)
    let cleanContent := goReplaceAll cleanContent ( "\t".toList) ( " ".toList)
    let ls := goSplit ( "\n".toList) cleanContent
    let result := (ls.map (fun rawLine =>
      let line := goTrimSpace rawLine
      if 3 < line.length then line ++ "\n".toList else [])).flatten
    if (goTrimSpace result).length = 0 then
      "Word document ".toList ++ filePath ++
        " processed but no readable text content found".toList
    else result

/-- `formatHierarchicalReference` (app.go): renders a citation as
`parent-folder/filename`, stripping the `testData` root. -/
def formatHierarchicalReference (fp filename : Str) : Str :=
  if fp = [] then filename
  else
    let baseName := filename
    let dir :=
      if goEndsWith fp filename then
        goTrimTrailing (goTrimTrailing (goTrimTrailing fp filename) ( "/".toList)) ( "\\".toList)
      else fp
    let dir := goTrimLeading (goTrimLeading (goTrimLeading dir
      ( "testData/".toList)) ( "testData\\".toList)) ( "testData".toList)
    if dir = [] || dir = ".".toList then baseName
    else
      let parts := goSplit ( "/".toList) (goReplaceAll dir ( "\\".toList) ( "/".toList))
      let pathParts := parts.filter (fun part =>
        decide (part ≠ []) && decide (part ≠ ".".toList) && decide (part ≠ "testData".toList))
      if pathParts.length = 0 then baseName
      else if pathParts.length = 1 then pathParts.getD 0 [] ++ "/".toList ++ baseName
      else pathParts.getD (pathParts.length - 1) [] ++ "/".toList ++ baseName

/-- Paragraph splitting of `findMostRelevantSection` (app.go): double-newline
paragraphs, falling back to sentence splitting when fewer than 3 result. -/
def paragraphsOf (content : Str) : List Str :=
  let paragraphs := goSplit ( "\n\n".toList) content
  if paragraphs.length < 3 then goSplit ( ". ".toList) content else paragraphs

/-- The window of up to 3 consecutive paragraphs starting at index `i`,
re-joined with double newlines (app.go, `findMostRelevantSection`). -/
def windowAt (paragraphs : List Str) (i : Nat) : Str :=
  List.intercalate ( "\n\n".toList) ((paragraphs.drop i).take 3)

/-- Window scoring of `findMostRelevantSection`: per query token of length
greater than 2 that occurs in the window, the number of its occurrences. -/
def sectionScore (keywords : List Str) (sect : Str) : Nat :=
  let lowerSection := goToLower sect
  (keywords.map (fun keyword =>
    if 2 < keyword.length && goContains lowerSection keyword then
      goCount lowerSection keyword
    else 0)).sum

/-- One step of the best-window fold: windows longer than `maxLength` are
skipped, a strictly better score replaces the current best. -/
def bestStep (keywords : List Str) (paragraphs : List Str) (maxLength : Nat)
    (acc : Nat × Str) (i : Nat) : Nat × Str :=
  let sect := windowAt paragraphs i
  if maxLength < sect.length then acc
  else if acc.1 < sectionScore keywords sect then (sectionScore keywords sect, sect)
  else acc

/-- The `bestScore` / `bestSection` loop of `findMostRelevantSection`. -/
def bestWindow (keywords : List Str) (paragraphs : List Str) (maxLength : Nat) : Nat × Str :=
  (List.range paragraphs.length).foldl (bestStep keywords paragraphs maxLength) (0, [])

/-- `findMostRelevantSection` (app.go). -/
def findMostRelevantSection (content userInput : Str) (maxLength : Nat) : Str :=
  let lowerInput := goToLower userInput
  let keywords := goFields lowerInput
  let best := (bestWindow keywords (paragraphsOf content) maxLength).2
  if best = [] && decide (maxLength < content.length) then content.take maxLength else best

/-- Holds when no window both fits in `maxLength` and scores positively (so
the `bestSection` of the fold stays empty). -/
def noGoodWindow (keywords : List Str) (paragraphs : List Str) (maxLength : Nat) : Bool :=
  (List.range paragraphs.length).all (fun i =>
    !(decide ((windowAt paragraphs i).length ≤ maxLength) &&
      decide (0 < sectionScore keywords (windowAt paragraphs i))))

/-- The fixed technical-keyword list of the user-upload tier (app.go). -/
def uploadTechKeywords : List Str :=
  [ "error", "problem", "issue", "step", "solution", "configure", "install",
    "troubleshoot" ].map String.toList

/-- The upload display name: everything after the second underscore when the
stored name has at least two (app.go, `strings.SplitN(filename, "_", 3)`). -/
def displayNameOf (filename : Str) : Str :=
  if goContains filename ( "_".toList) then
    let parts := goSplitN ( "_".toList) 3 filename
    if 3 ≤ parts.length then parts.getD 2 [] else filename
  else filename

/-- The liberal inclusion test of the user-upload tier (app.go): short
trimmed queries include everything; otherwise content longer than 50
characters is included on any query-token match or technical keyword. -/
def shouldIncludeUpload (lowerInput content : Str) : Bool :=
  if (goTrimSpace lowerInput).length ≤ 10 then true
  else if 50 < content.length then
    (goFields lowerInput).any (fun w => 2 < w.length && goContains (goToLower content) w) ||
    uploadTechKeywords.any (fun k => goContains (goToLower content) k)
  else false

/-- Per-upload contribution of the user-upload tier: header plus content
truncated to 800 characters with an ellipsis, and one citation. -/
def uploadEntry (lowerInput : Str) (fc : Str × Str) : Str × List Str :=
  if shouldIncludeUpload lowerInput fc.2 then
    ( "From User Upload (".toList ++ displayNameOf fc.1 ++ "):\n".toList ++
        (if 800 < fc.2.length then fc.2.take 800 ++ "...".toList ++ "\n\n".toList
         else fc.2 ++ "\n\n".toList),
      [ "User Upload: ".toList ++ displayNameOf fc.1])
  else ([], [])

/-- Concatenates the per-item contributions of one tier, in iteration order
(each Go loop iteration appends to the context builder and the source list). -/
def tierOf {α : Type} (f : α → Str × List Str) (items : List α) : Str × List Str :=
  ((items.map (fun x => (f x).1)).flatten, (items.map (fun x => (f x).2)).flatten)

/-- Priority 0 of `buildEngineeringContext`: the user uploads. -/
def uploadTier (db : KnowledgeDB) (lowerInput : Str) : Str × List Str :=
  tierOf (uploadEntry lowerInput) db.userUploads

/-- The operational keywords classifying a query as technical (app.go). -/
def technicalQueryKeywords : List Str :=
  [ "error", "problem", "troubleshoot", "timeout", "connection", "device",
    "communication", "system", "software", "hardware", "issue", "failure",
    "malfunction" ].map String.toList

/-- The technical / general query classification of `buildEngineeringContext`. -/
def isTechnicalQuery (lowerInput : Str) : Bool :=
  technicalQueryKeywords.any (fun k => goContains lowerInput k)

/-- Per-item truncation `content[:n] + "...\n\n"` used by several tiers. -/
def truncTo (n : Nat) (content : Str) : Str :=
  if n < content.length then content.take n ++ "...".toList ++ "\n\n".toList
  else content ++ "\n\n".toList

/-- The stricter inclusion bar of the general (non-technical) path: at least
2 query tokens of length greater than 3 occurring in the content. -/
def generalIncluded (lowerInput content : Str) : Bool :=
  decide (2 ≤ (goFields lowerInput).countP
    (fun w => 3 < w.length && goContains (goToLower content) w))

/-- The formatted citation of a corpus document (path index lookup plus
hierarchical formatting), as computed per tier in app.go. -/
def sourceRef (db : KnowledgeDB) (filename : Str) : Str :=
  formatHierarchicalReference (mapGet db.filePaths filename) filename

/-- Per-document contribution of the general path over text-kind documents. -/
def generalEntry (db : KnowledgeDB) (lowerInput : Str) (fc : Str × Str) : Str × List Str :=
  if generalIncluded lowerInput fc.2 then
    ( "From ".toList ++ sourceRef db fc.1 ++ ":\n".toList ++ truncTo 400 fc.2,
      [sourceRef db fc.1])
  else ([], [])

/-- The general-path scan over all text-kind documents. -/
def generalTier (db : KnowledgeDB) (lowerInput : Str) : Str × List Str :=
  tierOf (generalEntry db lowerInput) db.textFiles

/-- Priority 1: HTML documentation files passing the relevance scorer,
truncated to 500; cited by bare filename. -/
def htmlEntry (lowerInput : Str) (fc : Str × Str) : Str × List Str :=
  if goContains (goToLower fc.1) ( ".html".toList) then
    if IsRelevantContent lowerInput fc.2 then
      ( "From Engineering Documentation (".toList ++ fc.1 ++ "):\n".toList ++
          truncTo 500 fc.2,
        [ "Engineering Documentation: ".toList ++ fc.1])
    else ([], [])
  else ([], [])

def htmlTier (db : KnowledgeDB) (lowerInput : Str) : Str × List Str :=
  tierOf (htmlEntry lowerInput) db.textFiles

/-- Whether priority 1 found any document (the `supportDocsFound` flag). -/
def htmlFound (db : KnowledgeDB) (lowerInput : Str) : Bool :=
  db.textFiles.any (fun fc =>
    goContains (goToLower fc.1) ( ".html".toList) && IsRelevantContent lowerInput fc.2)

/-- Priority 2: structured error codes matched by code, description or
related components; all steps are emitted, numbered. -/
def errorCodeEntry (lowerInput : Str) (ec : ErrorCode) : Str × List Str :=
  if goContains lowerInput (goToLower ec.code) ||
      goContains lowerInput (goToLower ec.description) ||
      ContainsAnyKeyword lowerInput ec.relatedComponents then
    ( "Error Code ".toList ++ ec.code ++ ": ".toList ++ ec.description ++ "\n".toList ++
        "Troubleshooting Steps:\n".toList ++ numbered ec.troubleshootingSteps ++ "\n".toList,
      [ "Error Code: ".toList ++ ec.code])
  else ([], [])

def errorCodeTier (db : KnowledgeDB) (lowerInput : Str) : Str × List Str :=
  tierOf (errorCodeEntry lowerInput) db.errorCodes

/-- Priority 3: common issues matched by issue name or symptoms. -/
def issueEntry (lowerInput : Str) (ci : CommonIssue) : Str × List Str :=
  if goContains lowerInput (goToLower ci.issue) ||
      ContainsAnyKeyword lowerInput ci.symptoms then
    ( "Common Issue: ".toList ++ ci.issue ++ "\n".toList ++ "Solutions:\n".toList ++
        numbered ci.solutions ++ "\n".toList,
      [ "Common Issue: ".toList ++ ci.issue])
  else ([], [])

def issueTier (db : KnowledgeDB) (lowerInput : Str) : Str × List Str :=
  tierOf (issueEntry lowerInput) db.commonIssues

/-- Priority 4: remaining (non-HTML) text files passing the relevance
scorer, truncated to 400. -/
def otherTextEntry (db : KnowledgeDB) (lowerInput : Str) (fc : Str × Str) : Str × List Str :=
  if goContains (goToLower fc.1) ( ".html".toList) then ([], [])
  else if IsRelevantContent lowerInput fc.2 then
    ( "From ".toList ++ sourceRef db fc.1 ++ ":\n".toList ++ truncTo 400 fc.2,
      [sourceRef db fc.1])
  else ([], [])

def otherTextTier (db : KnowledgeDB) (lowerInput : Str) : Str × List Str :=
  tierOf (otherTextEntry db lowerInput) db.textFiles

/-- The size rule shared by the PDF and Word tiers: above 1000 characters the
section extractor with an 800 budget, above 600 truncate to 600, else full. -/
def bigDocSlice (lowerInput content : Str) : Str :=
  if 1000 < content.length then
    findMostRelevantSection content lowerInput 800 ++ "...".toList ++ "\n\n".toList
  else if 600 < content.length then content.take 600 ++ "...".toList ++ "\n\n".toList
  else content ++ "\n\n".toList

/-- PDF tier: skips metadata-looking content (`<<` and `>>`), then the
relevance scorer and the big-document size rule. -/
def pdfEntry (db : KnowledgeDB) (lowerInput : Str) (fc : Str × Str) : Str × List Str :=
  if goContains fc.2 ( "<<".toList) && goContains fc.2 ( ">>".toList) then ([], [])
  else if IsRelevantContent lowerInput fc.2 then
    ( "From ".toList ++ sourceRef db fc.1 ++ ":\n".toList ++ bigDocSlice lowerInput fc.2,
      [ "PDF: ".toList ++ sourceRef db fc.1])
  else ([], [])

def pdfTier (db : KnowledgeDB) (lowerInput : Str) : Str × List Str :=
  tierOf (pdfEntry db lowerInput) db.pdfContents

/-- Word tier: skips content containing `"Failed to extract"` or
`"not supported"`, then the relevance scorer and the big-document rule. -/
def wordEntry (db : KnowledgeDB) (lowerInput : Str) (fc : Str × Str) : Str × List Str :=
  if goContains fc.2 ( "Failed to extract".toList) ||
      goContains fc.2 ( "not supported".toList) then ([], [])
  else if IsRelevantContent lowerInput fc.2 then
    ( "From Word Document (".toList ++ sourceRef db fc.1 ++ "):\n".toList ++
        bigDocSlice lowerInput fc.2,
      [ "Word Document: ".toList ++ sourceRef db fc.1])
  else ([], [])

def wordTier (db : KnowledgeDB) (lowerInput : Str) : Str × List Str :=
  tierOf (wordEntry db lowerInput) db.wordContents

/-- Image tier: skips content containing `"Failed to process"`, includes the
full content of relevant entries. -/
def imageEntry (db : KnowledgeDB) (lowerInput : Str) (fc : Str × Str) : Str × List Str :=
  if goContains fc.2 ( "Failed to process".toList) then ([], [])
  else if IsRelevantContent lowerInput fc.2 then
    ( "From Image (".toList ++ sourceRef db fc.1 ++ "):\n".toList ++ fc.2 ++ "\n\n".toList,
      [ "Image: ".toList ++ sourceRef db fc.1])
  else ([], [])

def imageTier (db : KnowledgeDB) (lowerInput : Str) : Str × List Str :=
  tierOf (imageEntry db lowerInput) db.imageContents

/-- Fallback part 1 (only when no HTML doc was relevant): up to 2 HTML
documents, truncated to 300. -/
def fallbackHtmlPart (db : KnowledgeDB) : Str × List Str :=
  let r := db.textFiles.foldl (fun (acc : Str × List Str × Nat) fc =>
    if goContains (goToLower fc.1) ( ".html".toList) && acc.2.2 < 2 then
      (acc.1 ++ "From Engineering Documentation (".toList ++ sourceRef db fc.1 ++
         "):\n".toList ++ truncTo 300 fc.2,
       acc.2.1 ++ [ "Engineering Documentation (General): ".toList ++ sourceRef db fc.1],
       acc.2.2 + 1)
    else acc) ([], [], 0)
  (r.1, r.2.1)

/-- Fallback part 2: every error-code header as general reference. -/
def fallbackErrorCodes (db : KnowledgeDB) : Str × List Str :=
  tierOf (fun ec =>
    ( "Error Code ".toList ++ ec.code ++ ": ".toList ++ ec.description ++ "\n".toList,
      [ "Error Code Reference: ".toList ++ ec.code])) db.errorCodes

/-- Fallback part 3: the first non-HTML text file, truncated to 300. -/
def fallbackFirstText (db : KnowledgeDB) : Str × List Str :=
  match db.textFiles.find? (fun fc => !goContains (goToLower fc.1) ( ".html".toList)) with
  | some fc =>
    ( "From ".toList ++ sourceRef db fc.1 ++ ":\n".toList ++ truncTo 300 fc.2,
      [ "General Reference: ".toList ++ sourceRef db fc.1])
  | none => ([], [])

/-- The general-reference fallback emitted when no tier contributed. -/
def fallbackTier (db : KnowledgeDB) (supportDocsFound : Bool) : Str × List Str :=
  let h := if supportDocsFound then (([] : Str), ([] : List Str)) else fallbackHtmlPart db
  ( "General Engineering Knowledge:\n\n".toList ++ h.1 ++ (fallbackErrorCodes db).1 ++
      "\n".toList ++ (fallbackFirstText db).1,
    h.2 ++ (fallbackErrorCodes db).2 ++ (fallbackFirstText db).2)

/-- The fixed truncation notice appended by the global cap. -/
def truncationMarker : Str := "\n[Context truncated to prevent timeout...]".toList

/-- The global size cap of `buildEngineeringContext`: text over 1500
characters is cut to 1500 and the truncation notice is appended. -/
def applyCap (ctx : Str) : Str :=
  if 1500 < ctx.length then ctx.take 1500 ++ truncationMarker else ctx

/-- The fixed "outside expertise" reply of the general path. -/
def outsideExpertiseMessage (userInput : Str) : Str :=
  "I'm BeanBot, specifically designed for engineering support. Your question '".toList ++
  userInput ++
  "' seems to be outside my technical expertise. I can help with engineering errors, system issues, device problems, and technical troubleshooting.".toList

/-- The non-technical branch of `buildEngineeringContext`: the selective
text-file scan, or the fixed message when the context (including the upload
tier) is empty. -/
def generalPath (db : KnowledgeDB) (userInput lowerInput : Str) (ctx0 : Str)
    (src0 : List Str) : Str × List Str :=
  let g := generalTier db lowerInput
  if (ctx0 ++ g.1).length = 0 then (outsideExpertiseMessage userInput, [])
  else (ctx0 ++ g.1, src0 ++ g.2)

/-- The technical branch of `buildEngineeringContext`: priorities 1-4, the
PDF / Word / image tiers, the fallback when nothing was found, and the
global cap. -/
def technicalPath (db : KnowledgeDB) (lowerInput : Str) (ctx0 : Str)
    (src0 : List Str) : Str × List Str :=
  let c1 := htmlTier db lowerInput
  let c2 := errorCodeTier db lowerInput
  let c3 := issueTier db lowerInput
  let c4 := otherTextTier db lowerInput
  let c5 := pdfTier db lowerInput
  let c6 := wordTier db lowerInput
  let c7 := imageTier db lowerInput
  let ctxAll := ctx0 ++ c1.1 ++ c2.1 ++ c3.1 ++ c4.1 ++ c5.1 ++ c6.1 ++ c7.1
  let srcAll := src0 ++ c1.2 ++ c2.2 ++ c3.2 ++ c4.2 ++ c5.2 ++ c6.2 ++ c7.2
  if ctxAll.length = 0 then
    (applyCap (ctxAll ++ (fallbackTier db (htmlFound db lowerInput)).1),
     srcAll ++ (fallbackTier db (htmlFound db lowerInput)).2)
  else (applyCap ctxAll, srcAll)

/-- `buildEngineeringContext` (app.go): the context assembler, returning the
assembled text and the ordered source citations. -/
def buildEngineeringContext (db : KnowledgeDB) (userInput : Str) : Str × List Str :=
  let lowerInput := goToLower userInput
  let p0 := uploadTier db lowerInput
  if isTechnicalQuery lowerInput then technicalPath db lowerInput p0.1 p0.2
  else generalPath db userInput lowerInput p0.1 p0.2

/-- Go `filepath.Base` (modelled: both separators normalised, trailing
separators dropped, last component taken). -/
def filepathBase (p : Str) : Str :=
  if p = [] then ".".toList
  else
    let q := goReplaceAll p ( "\\".toList) ( "/".toList)
    let q := (q.reverse.dropWhile (fun c => c = '/')).reverse
    if q = [] then "/".toList
    else (q.reverse.takeWhile (fun c => !decide (c = '/'))).reverse

mutual
/-- A directory entry seen by `loadTextFiles`.  A `file` carries its name and
the oracles for the I/O the extractors perform on it: the `os.ReadFile`
result (`none` on read error), the `extractPDFText` result, the docx-library
read (`Except`) consumed by `extractWordContent`, and the `extractImageContent`
result. -/
inductive FSEntry : Type where
  | dir : Str → FSList → FSEntry
  | file : Str → Option Str → Str → Except Str Str → Str → FSEntry
/-- A directory listing, in `os.ReadDir` order. -/
inductive FSList : Type where
  | nil : FSList
  | cons : FSEntry → FSList → FSList
end

/-- The per-file body of `loadTextFiles` (database.go): extension dispatch,
extraction, and the joint update of one content map and the path index. -/
def storeFile (db : KnowledgeDB) (dirPath name : Str) (data : Option Str)
    (pdfText : Str) (wordRaw : Except Str Str) (imageText : Str) : KnowledgeDB :=
  let fullPath := dirPath ++ "/".toList ++ name
  let lowerName := goToLower name
  if goEndsWith lowerName ( ".txt".toList) then
    match data with
    | some d =>
      { db with textFiles := insertA db.textFiles name d,
                filePaths := insertA db.filePaths name fullPath }
    | none => db
  else if goEndsWith lowerName ( ".drawio".toList) then
    match data with
    | some d =>
      let content := extractDrawIOContent d
      if content ≠ [] then
        { db with textFiles := insertA db.textFiles name content,
                  filePaths := insertA db.filePaths name fullPath }
      else db
    | none => db
  else if goEndsWith lowerName ( ".html".toList) then
    match data with
    | some d =>
      let content := extractHTMLContent d
      if content ≠ [] then
        { db with textFiles := insertA db.textFiles name content,
                  filePaths := insertA db.filePaths name fullPath }
      else db
    | none => db
  else if goEndsWith lowerName ( ".pdf".toList) then
    if pdfText ≠ [] then
      { db with pdfContents := insertA db.pdfContents name pdfText,
                filePaths := insertA db.filePaths name fullPath }
    else
      { db with pdfContents := insertA db.pdfContents name
                  ( "Failed to extract text from PDF - ".toList ++ name),
                filePaths := insertA db.filePaths name fullPath }
  else if goEndsWith lowerName ( ".docx".toList) || goEndsWith lowerName ( ".doc".toList) then
    if goEndsWith lowerName ( ".docx".toList) then
      let content := extractWordContent fullPath wordRaw
      if content ≠ [] then
        { db with wordContents := insertA db.wordContents name content,
                  filePaths := insertA db.filePaths name fullPath }
      else
        { db with wordContents := insertA db.wordContents name
                    ( "Failed to extract text from Word document - ".toList ++ name),
                  filePaths := insertA db.filePaths name fullPath }
    else
      { db with wordContents := insertA db.wordContents name
                  ( "Legacy .doc format not supported - please convert to .docx format: ".toList ++ name),
                filePaths := insertA db.filePaths name fullPath }
  else if goEndsWith lowerName ( ".png".toList) || goEndsWith lowerName ( ".jpg".toList) ||
      goEndsWith lowerName ( ".jpeg".toList) || goEndsWith lowerName ( ".bmp".toList) ||
      goEndsWith lowerName ( ".gif".toList) || goEndsWith lowerName ( ".tiff".toList) then
    if imageText ≠ [] then
      { db with imageContents := insertA db.imageContents name imageText,
                filePaths := insertA db.filePaths name fullPath }
    else
      { db with imageContents := insertA db.imageContents name
                  ( "Failed to process image - ".toList ++ name),
                filePaths := insertA db.filePaths name fullPath }
  else db

mutual
/-- One step of the recursive walk of `loadTextFiles`: files are dispatched,
directories are recursed into with the extended path. -/
def loadOneEntry (dirPath : Str) (e : FSEntry) (db : KnowledgeDB) : KnowledgeDB :=
  match e with
  | .file name data pdfText wordRaw imageText =>
    storeFile db dirPath name data pdfText wordRaw imageText
  | .dir name entries => loadEntries (dirPath ++ "/".toList ++ name) entries db
/-- `loadTextFiles` over a directory listing, in order. -/
def loadEntries (dirPath : Str) (es : FSList) (db : KnowledgeDB) : KnowledgeDB :=
  match es with
  | .nil => db
  | .cons e rest => loadEntries dirPath rest (loadOneEntry dirPath e db)
end

/-- A user-submitted file, with the same I/O oracles as `FSEntry.file` but
identified by its full path (`ProcessUserUpload` receives a path). -/
structure UploadFile where
  path : Str
  data : Option Str
  pdfText : Str
  wordRaw : Except Str Str
  imageText : Str

/-- The joint store at the end of `ProcessUserUpload`: content, path and
timestamp are recorded under the generated unique filename. -/
def uploadStore (db : KnowledgeDB) (uniqueFilename path : Str) (ts : Nat)
    (content : Str) : KnowledgeDB :=
  { db with userUploads := insertA db.userUploads uniqueFilename content,
            uploadPaths := insertA db.uploadPaths uniqueFilename path,
            uploadTime := (uniqueFilename, ts) :: db.uploadTime }

/-- `ProcessUserUpload` (database.go): extension dispatch with a raw-text
fallback for unknown extensions; read failures surface as errors and store
nothing. -/
def processUserUpload (db : KnowledgeDB) (uf : UploadFile) (ts : Nat) :
    Except Str KnowledgeDB :=
  let filename := filepathBase uf.path
  let lowerName := goToLower filename
  let uniqueFilename := "upload_".toList ++ natStr ts ++ "_".toList ++ filename
  if goEndsWith lowerName ( ".txt".toList) then
    match uf.data with
    | some d => .ok (uploadStore db uniqueFilename uf.path ts d)
    | none => .error ( "failed to process uploaded file ".toList ++ filename)
  else if goEndsWith lowerName ( ".html".toList) then
    match uf.data with
    | some d => .ok (uploadStore db uniqueFilename uf.path ts (extractHTMLContent d))
    | none => .error ( "failed to process uploaded file ".toList ++ filename)
  else if goEndsWith lowerName ( ".pdf".toList) then
    .ok (uploadStore db uniqueFilename uf.path ts
      (if uf.pdfText = [] then
        "Failed to extract text from uploaded PDF - ".toList ++ filename
       else uf.pdfText))
  else if goEndsWith lowerName ( ".docx".toList) then
    .ok (uploadStore db uniqueFilename uf.path ts
      (if extractWordContent uf.path uf.wordRaw = [] then
        "Failed to extract text from uploaded Word document - ".toList ++ filename
       else extractWordContent uf.path uf.wordRaw))
  else if goEndsWith lowerName ( ".png".toList) || goEndsWith lowerName ( ".jpg".toList) ||
      goEndsWith lowerName ( ".jpeg".toList) || goEndsWith lowerName ( ".bmp".toList) ||
      goEndsWith lowerName ( ".gif".toList) || goEndsWith lowerName ( ".tiff".toList) then
    .ok (uploadStore db uniqueFilename uf.path ts
      (if uf.imageText = [] then
        "Failed to process uploaded image - ".toList ++ filename
       else uf.imageText))
  else
    match uf.data with
    | some d => .ok (uploadStore db uniqueFilename uf.path ts d)
    | none => .error ( "unsupported file type: ".toList ++ filename)

/-- `ClearUserUploads` (database.go). -/
def clearUserUploads (db : KnowledgeDB) : KnowledgeDB :=
  { db with userUploads := [], uploadPaths := [], uploadTime := [] }

/-- An operation on the knowledge database: one ingestion walk or one user
upload (a failed upload leaves the state unchanged). -/
inductive KBOp : Type where
  | ingest : Str → FSList → KBOp
  | upload : UploadFile → Nat → KBOp

def applyOp (db : KnowledgeDB) : KBOp → KnowledgeDB
  | .ingest dirPath es => loadEntries dirPath es db
  | .upload uf ts =>
    match processUserUpload db uf ts with
    | .ok db2 => db2
    | .error _ => db

def runOps (db : KnowledgeDB) (ops : List KBOp) : KnowledgeDB := ops.foldl applyOp db

/-- Key membership in an association-list map. -/
def hasKey (m : List (Str × Str)) (k : Str) : Prop := ∃ v, (k, v) ∈ m

/-- The path-index invariant: every id of any content map has a path entry,
and every upload id has an upload-path entry. -/
def pathsComplete (db : KnowledgeDB) : Prop :=
  (∀ k, hasKey db.textFiles k → hasKey db.filePaths k) ∧
  (∀ k, hasKey db.pdfContents k → hasKey db.filePaths k) ∧
  (∀ k, hasKey db.wordContents k → hasKey db.filePaths k) ∧
  (∀ k, hasKey db.imageContents k → hasKey db.filePaths k) ∧
  (∀ k, hasKey db.userUploads k → hasKey db.uploadPaths k)

/-- The freshly constructed database of `NewKnowledgeDatabase`, before
`loadTextFiles` runs: structured data loaded, all maps empty. -/
def initialDB (ec : List ErrorCode) (ci : List CommonIssue) : KnowledgeDB :=
  { errorCodes := ec, commonIssues := ci }

/-- C7: for every query shorter than 10 characters and every non-empty
content, `IsRelevantContent` returns true (short-query permissiveness). -/
theorem isRelevant_short_query (q c : Str) (hq : q.length < 10) (_hc : c ≠ []) :
    IsRelevantContent q c = true := by
  have h3 : decide ((goToLower q).length < 10) = true := by
    rw [goToLower_length]
    exact decide_eq_true hq
  simp [IsRelevantContent, h3]

/-- Witness for C7 at the concrete query `"help"` and content `"x"`. -/
theorem isRelevant_short_query_witness :
    ( "help".toList).length < 10 ∧ ( "x".toList) ≠ [] ∧
    IsRelevantContent ( "help".toList) ( "x".toList) = true :=
  ⟨by decide, by decide, isRelevant_short_query ( "help".toList) ( "x".toList)
    (by decide) (by decide)⟩

/-- C10: `IsRelevantContent` is monotone in the content argument under
substring extension: every disjunct of the scorer can only become easier to
satisfy on a superstring. -/
theorem isRelevant_content_mono (q c c2 : Str) (hsub : c <:+: c2)
    (h : IsRelevantContent q c = true) : IsRelevantContent q c2 = true := by
  have hl : goToLower c <:+: goToLower c2 := goToLower_mono hsub
  have hlen : (goToLower c).length ≤ (goToLower c2).length := hl.length_le
  simp only [IsRelevantContent, Bool.or_eq_true, decide_eq_true_eq,
    Bool.and_eq_true] at h ⊢
  rcases h with ((((((h | h) | h) | h) | h) | h) | ⟨h1, h2⟩)
  · iterate 6 left
    obtain ⟨k, hk, hp⟩ := List.countP_pos_iff.mp h
    refine List.countP_pos_iff.mpr ⟨k, hk, ?_⟩
    simp only [Bool.and_eq_true, decide_eq_true_eq] at hp ⊢
    exact ⟨hp.1, goContains_mono hp.2 hl⟩
  · iterate 5 left
    right
    obtain ⟨k, hk, hp⟩ := List.countP_pos_iff.mp h
    refine List.countP_pos_iff.mpr ⟨k, hk, ?_⟩
    simp only [Bool.and_eq_true] at hp ⊢
    exact ⟨hp.1, goContains_mono hp.2 hl⟩
  · iterate 4 left
    right; exact h
  · iterate 3 left
    right; exact goContains_mono h hl
  · iterate 2 left
    right; exact goContains_mono h hl
  · left; right; exact goContains_mono h hl
  · right
    exact ⟨goContains_mono h1 hl, by omega⟩

/-- Witness for C10: `"abcd"` is a substring of `"xabcdy"`, both are relevant
to the query `"abcd efgh ijkl"`. -/
theorem isRelevant_content_mono_witness :
    ( "abcd".toList <:+: "xabcdy".toList) ∧
    IsRelevantContent ( "abcd efgh ijkl".toList) ( "abcd".toList) = true ∧
    IsRelevantContent ( "abcd efgh ijkl".toList) ( "xabcdy".toList) = true :=
  ⟨by decide, by decide,
    isRelevant_content_mono ( "abcd efgh ijkl".toList) ( "abcd".toList)
      ( "xabcdy".toList) (by decide) (by decide)⟩

/-- C8 (counterexample): `ContainsAnyKeyword` does not fold the case of the
input, so the case-insensitive reading fails on the input `"ERROR"` with the
keyword `"error"` (whose lower-cased form does occur case-insensitively). -/
theorem containsAnyKeyword_not_case_insensitive :
    ContainsAnyKeyword ( "ERROR".toList) [ "error".toList] = false ∧
    goToLower ( "error".toList) <:+: goToLower ( "ERROR".toList) := by
  exact ⟨by decide, by decide⟩

/-- C8 (amended): `ContainsAnyKeyword` returns true exactly when some
keyword, lower-cased, occurs as a substring of the input as given (the input
itself is not case-folded; every call site passes an already lower-cased
input). -/
theorem containsAnyKeyword_spec (input : Str) (keywords : List Str) :
    ContainsAnyKeyword input keywords = true ↔
      ∃ k ∈ keywords, goToLower k <:+: input := by
  simp [ContainsAnyKeyword, goContains_iff]

theorem hasKey_cons_self (m : List (Str × Str)) (k v : Str) : hasKey ((k, v) :: m) k :=
  ⟨v, List.mem_cons_self _ _⟩

theorem hasKey_cons_mono {m : List (Str × Str)} {k : Str} (a b : Str)
    (h : hasKey m k) : hasKey ((a, b) :: m) k := by
  obtain ⟨v, hv⟩ := h
  exact ⟨v, List.mem_cons_of_mem _ hv⟩

theorem hasKey_cons_elim {m : List (Str × Str)} {a b k : Str}
    (h : hasKey ((a, b) :: m) k) : k = a ∨ hasKey m k := by
  obtain ⟨v, hv⟩ := h
  rcases List.mem_cons.mp hv with h1 | h2
  · left
    exact (Prod.ext_iff.mp h1).1
  · exact Or.inr ⟨v, h2⟩

theorem pathsComplete_update_text {db : KnowledgeDB} (h : pathsComplete db)
    (k v p : Str) :
    pathsComplete { db with textFiles := insertA db.textFiles k v,
                            filePaths := insertA db.filePaths k p } := by
  obtain ⟨h1, h2, h3, h4, h5⟩ := h
  refine ⟨?_, ?_, ?_, ?_, h5⟩ <;> intro k2 hk2
  · rcases hasKey_cons_elim hk2 with rfl | hk3
    · exact hasKey_cons_self _ _ _
    · exact hasKey_cons_mono _ _ (h1 _ hk3)
  · exact hasKey_cons_mono _ _ (h2 _ hk2)
  · exact hasKey_cons_mono _ _ (h3 _ hk2)
  · exact hasKey_cons_mono _ _ (h4 _ hk2)

theorem pathsComplete_update_pdf {db : KnowledgeDB} (h : pathsComplete db)
    (k v p : Str) :
    pathsComplete { db with pdfContents := insertA db.pdfContents k v,
                            filePaths := insertA db.filePaths k p } := by
  obtain ⟨h1, h2, h3, h4, h5⟩ := h
  refine ⟨?_, ?_, ?_, ?_, h5⟩ <;> intro k2 hk2
  · exact hasKey_cons_mono _ _ (h1 _ hk2)
  · rcases hasKey_cons_elim hk2 with rfl | hk3
    · exact hasKey_cons_self _ _ _
    · exact hasKey_cons_mono _ _ (h2 _ hk3)
  · exact hasKey_cons_mono _ _ (h3 _ hk2)
  · exact hasKey_cons_mono _ _ (h4 _ hk2)

theorem pathsComplete_update_word {db : KnowledgeDB} (h : pathsComplete db)
    (k v p : Str) :
    pathsComplete { db with wordContents := insertA db.wordContents k v,
                            filePaths := insertA db.filePaths k p } := by
  obtain ⟨h1, h2, h3, h4, h5⟩ := h
  refine ⟨?_, ?_, ?_, ?_, h5⟩ <;> intro k2 hk2
  · exact hasKey_cons_mono _ _ (h1 _ hk2)
  · exact hasKey_cons_mono _ _ (h2 _ hk2)
  · rcases hasKey_cons_elim hk2 with rfl | hk3
    · exact hasKey_cons_self _ _ _
    · exact hasKey_cons_mono _ _ (h3 _ hk3)
  · exact hasKey_cons_mono _ _ (h4 _ hk2)

theorem pathsComplete_update_image {db : KnowledgeDB} (h : pathsComplete db)
    (k v p : Str) :
    pathsComplete { db with imageContents := insertA db.imageContents k v,
                            filePaths := insertA db.filePaths k p } := by
  obtain ⟨h1, h2, h3, h4, h5⟩ := h
  refine ⟨?_, ?_, ?_, ?_, h5⟩ <;> intro k2 hk2
  · exact hasKey_cons_mono _ _ (h1 _ hk2)
  · exact hasKey_cons_mono _ _ (h2 _ hk2)
  · exact hasKey_cons_mono _ _ (h3 _ hk2)
  · rcases hasKey_cons_elim hk2 with rfl | hk3
    · exact hasKey_cons_self _ _ _
    · exact hasKey_cons_mono _ _ (h4 _ hk3)

theorem pathsComplete_uploadStore {db : KnowledgeDB} (h : pathsComplete db)
    (u p : Str) (ts : Nat) (c : Str) :
    pathsComplete (uploadStore db u p ts c) := by
  obtain ⟨h1, h2, h3, h4, h5⟩ := h
  refine ⟨h1, h2, h3, h4, ?_⟩
  intro k2 hk2
  rcases hasKey_cons_elim hk2 with rfl | hk3
  · exact hasKey_cons_self _ _ _
  · exact hasKey_cons_mono _ _ (h5 _ hk3)

theorem storeFile_pathsComplete {db : KnowledgeDB} (h : pathsComplete db)
    (dirPath name : Str) (data : Option Str) (pdfText : Str)
    (wordRaw : Except Str Str) (imageText : Str) :
    pathsComplete (storeFile db dirPath name data pdfText wordRaw imageText) := by
  unfold storeFile
  dsimp only
  repeat' split
  all_goals
    first
    | exact h
    | exact pathsComplete_update_text h _ _ _
    | exact pathsComplete_update_pdf h _ _ _
    | exact pathsComplete_update_word h _ _ _
    | exact pathsComplete_update_image h _ _ _

mutual
theorem loadOneEntry_pathsComplete (dirPath : Str) (e : FSEntry) (db : KnowledgeDB)
    (h : pathsComplete db) : pathsComplete (loadOneEntry dirPath e db) := by
  cases e with
  | file name data pdfText wordRaw imageText =>
    rw [loadOneEntry]
    exact storeFile_pathsComplete h _ _ _ _ _ _
  | dir name entries =>
    rw [loadOneEntry]
    exact loadEntries_pathsComplete _ entries db h
theorem loadEntries_pathsComplete (dirPath : Str) (es : FSList) (db : KnowledgeDB)
    (h : pathsComplete db) : pathsComplete (loadEntries dirPath es db) := by
  cases es with
  | nil => rw [loadEntries]; exact h
  | cons e rest =>
    rw [loadEntries]
    exact loadEntries_pathsComplete dirPath rest _ (loadOneEntry_pathsComplete dirPath e db h)
end

theorem processUserUpload_ok_pathsComplete {db db2 : KnowledgeDB} {uf : UploadFile}
    {ts : Nat} (heq : processUserUpload db uf ts = .ok db2) (h : pathsComplete db) :
    pathsComplete db2 := by
  unfold processUserUpload at heq
  dsimp only at heq
  repeat' split at heq
  all_goals
    first
    | (cases heq; exact pathsComplete_uploadStore h _ _ _ _)
    | simp at heq

theorem applyOp_pathsComplete (db : KnowledgeDB) (op : KBOp)
    (h : pathsComplete db) : pathsComplete (applyOp db op) := by
  cases op with
  | ingest dirPath es => exact loadEntries_pathsComplete dirPath es db h
  | upload uf ts =>
    have hmatch : applyOp db (.upload uf ts) =
        match processUserUpload db uf ts with
        | .ok db2 => db2
        | .error _ => db := rfl
    rw [hmatch]
    split
    · next db2 heq => exact processUserUpload_ok_pathsComplete heq h
    · exact h

theorem runOps_pathsComplete (ops : List KBOp) :
    ∀ db : KnowledgeDB, pathsComplete db → pathsComplete (runOps db ops) := by
  induction ops with
  | nil => intro db h; exact h
  | cons op rest ih =>
    intro db h
    exact ih _ (applyOp_pathsComplete db op h)

/-- C9: after any sequence of ingestion walks and user uploads starting from
the freshly constructed database, every id in a content map has a path entry
and every upload id has an upload-path entry. -/
theorem ingestion_upload_paths_complete (ec : List ErrorCode) (ci : List CommonIssue)
    (ops : List KBOp) : pathsComplete (runOps (initialDB ec ci) ops) := by
  apply runOps_pathsComplete
  refine ⟨?_, ?_, ?_, ?_, ?_⟩ <;>
    · intro k hk
      obtain ⟨v, hv⟩ := hk
      cases hv

theorem goCount_nil {sub : Str} (h : sub ≠ []) : goCount [] sub = 0 := by
  unfold goCount goSplit
  rw [if_neg h, if_neg h]
  simp [goSplitF]

theorem sectionScore_nil (keywords : List Str) : sectionScore keywords [] = 0 := by
  unfold sectionScore
  simp only [goToLower, List.map_nil]
  rw [List.sum_eq_zero_iff]
  intro x hx
  obtain ⟨k, hk, rfl⟩ := List.mem_map.mp hx
  split
  · next hcond =>
    simp only [Bool.and_eq_true, decide_eq_true_eq] at hcond
    apply goCount_nil
    intro hnil
    rw [hnil] at hcond
    simp at hcond
  · rfl

theorem sectionScore_pos_iff (keywords : List Str) (sect : Str) :
    0 < sectionScore keywords sect ↔
      ∃ k ∈ keywords, 2 < k.length ∧ goContains (goToLower sect) k = true := by
  unfold sectionScore
  dsimp only
  constructor
  · intro h
    by_contra hno
    push_neg at hno
    have hz : ∀ x ∈ keywords.map (fun k =>
        if 2 < k.length && goContains (goToLower sect) k then
          goCount (goToLower sect) k else 0), x = 0 := by
      intro x hx
      obtain ⟨k, hk, rfl⟩ := List.mem_map.mp hx
      split
      · next hcond =>
        simp only [Bool.and_eq_true, decide_eq_true_eq] at hcond
        exact absurd hcond.2 (hno k hk hcond.1)
      · rfl
    rw [List.sum_eq_zero_iff.mpr hz] at h
    exact Nat.lt_irrefl 0 h
  · rintro ⟨k, hk, hklen, hkc⟩
    have hterm : 0 < (if 2 < k.length && goContains (goToLower sect) k then
        goCount (goToLower sect) k else 0) := by
      rw [if_pos (by simp [hklen, hkc])]
      refine goCount_pos_of_contains ?_ hkc
      intro hnil
      rw [hnil] at hklen
      simp at hklen
    have hmem : (if 2 < k.length && goContains (goToLower sect) k then
        goCount (goToLower sect) k else 0) ∈ keywords.map (fun k =>
          if 2 < k.length && goContains (goToLower sect) k then
            goCount (goToLower sect) k else 0) :=
      List.mem_map_of_mem _ hk
    exact Nat.lt_of_lt_of_le hterm
      (List.single_le_sum (fun x _ => Nat.zero_le x) _ hmem)

theorem bestStep_eq (keywords ps : List Str) (maxLength : Nat) (acc : Nat × Str)
    (i : Nat) :
    bestStep keywords ps maxLength acc i =
      if maxLength < (windowAt ps i).length then acc
      else if acc.1 < sectionScore keywords (windowAt ps i) then
        (sectionScore keywords (windowAt ps i), windowAt ps i)
      else acc := rfl

theorem bestFold_bound (keywords ps : List Str) (maxLength : Nat) :
    ∀ (idxs : List Nat) (acc : Nat × Str),
      (acc.2 ≠ [] → acc.2.length ≤ maxLength) →
      ((idxs.foldl (bestStep keywords ps maxLength) acc).2 ≠ [] →
        (idxs.foldl (bestStep keywords ps maxLength) acc).2.length ≤ maxLength) := by
  intro idxs
  induction idxs with
  | nil => intro acc hacc; exact hacc
  | cons i rest ih =>
    intro acc hacc
    rw [List.foldl_cons]
    apply ih
    unfold bestStep
    dsimp only
    split
    · exact hacc
    · next hlong =>
      split
      · intro _
        exact Nat.le_of_not_lt hlong
      · exact hacc

theorem bestFold_nil_iff (keywords ps : List Str) (maxLength : Nat) :
    ∀ (idxs : List Nat) (acc : Nat × Str), (acc.2 = [] → acc.1 = 0) →
      ((idxs.foldl (bestStep keywords ps maxLength) acc).2 = [] ↔
        (acc.2 = [] ∧ ∀ i ∈ idxs, ¬((windowAt ps i).length ≤ maxLength ∧
          0 < sectionScore keywords (windowAt ps i)))) := by
  intro idxs
  induction idxs with
  | nil =>
    intro acc hacc
    simp
  | cons i rest ih =>
    intro acc hacc
    rw [List.foldl_cons, bestStep_eq]
    by_cases hlong : maxLength < (windowAt ps i).length
    · rw [if_pos hlong, ih acc hacc]
      constructor
      · rintro ⟨he, hall⟩
        refine ⟨he, fun j hj => ?_⟩
        rcases List.mem_cons.mp hj with rfl | hj2
        · rintro ⟨hfit, _⟩
          omega
        · exact hall j hj2
      · rintro ⟨he, hall⟩
        exact ⟨he, fun j hj => hall j (List.mem_cons_of_mem _ hj)⟩
    · rw [if_neg hlong]
      by_cases hsc : acc.1 < sectionScore keywords (windowAt ps i)
      · rw [if_pos hsc]
        have hwpos : 0 < sectionScore keywords (windowAt ps i) :=
          Nat.lt_of_le_of_lt (Nat.zero_le _) hsc
        have hwne : windowAt ps i ≠ [] := by
          intro hnil
          rw [hnil, sectionScore_nil] at hwpos
          exact Nat.lt_irrefl 0 hwpos
        rw [ih (sectionScore keywords (windowAt ps i), windowAt ps i)
          (fun hh => absurd hh hwne)]
        constructor
        · rintro ⟨he, _⟩
          exact absurd he hwne
        · rintro ⟨he, hall⟩
          exact absurd ⟨Nat.le_of_not_lt hlong, hwpos⟩ (hall i (List.mem_cons_self i rest))
      · rw [if_neg hsc, ih acc hacc]
        constructor
        · rintro ⟨he, hall⟩
          refine ⟨he, fun j hj => ?_⟩
          rcases List.mem_cons.mp hj with rfl | hj2
          · rintro ⟨_, hpos⟩
            rw [hacc he] at hsc
            exact hsc hpos
          · exact hall j hj2
        · rintro ⟨he, hall⟩
          exact ⟨he, fun j hj => hall j (List.mem_cons_of_mem _ hj)⟩

theorem noGoodWindow_iff (keywords ps : List Str) (maxLength : Nat) :
    noGoodWindow keywords ps maxLength = true ↔
      ∀ i ∈ List.range ps.length, ¬((windowAt ps i).length ≤ maxLength ∧
        0 < sectionScore keywords (windowAt ps i)) := by
  unfold noGoodWindow
  rw [List.all_eq_true]
  constructor
  · intro h i hi
    have := h i hi
    simp only [Bool.not_eq_true', Bool.and_eq_false_iff, decide_eq_false_iff_not] at this
    tauto
  · intro h i hi
    have := h i hi
    simp only [Bool.not_eq_true', Bool.and_eq_false_iff, decide_eq_false_iff_not]
    tauto

theorem bestWindow_nil_iff (keywords ps : List Str) (maxLength : Nat) :
    (bestWindow keywords ps maxLength).2 = [] ↔
      noGoodWindow keywords ps maxLength = true := by
  unfold bestWindow
  rw [bestFold_nil_iff keywords ps maxLength (List.range ps.length) (0, [])
    (fun _ => rfl), noGoodWindow_iff]
  simp

theorem bestWindow_length_le (keywords ps : List Str) (maxLength : Nat)
    (h : (bestWindow keywords ps maxLength).2 ≠ []) :
    (bestWindow keywords ps maxLength).2.length ≤ maxLength := by
  unfold bestWindow at h ⊢
  exact bestFold_bound keywords ps maxLength (List.range ps.length) (0, [])
    (fun hh => absurd rfl hh) h

/-- C3 (amended): the section extractor never returns more than `maxLength`
characters (the fallback included); the fallback branch is taken exactly when
no window both fits the budget and scores positively and the content exceeds
`maxLength`; in that case it returns the leading `maxLength` characters of
the raw content, which are non-empty provided `maxLength` is positive. -/
theorem bestSection_spec (content q : Str) (maxLength : Nat) :
    (findMostRelevantSection content q maxLength).length ≤ maxLength ∧
    ((bestWindow (goFields (goToLower q)) (paragraphsOf content) maxLength).2 = [] ↔
      noGoodWindow (goFields (goToLower q)) (paragraphsOf content) maxLength = true) ∧
    (noGoodWindow (goFields (goToLower q)) (paragraphsOf content) maxLength = true →
      maxLength < content.length →
      findMostRelevantSection content q maxLength = content.take maxLength ∧
      (0 < maxLength → findMostRelevantSection content q maxLength ≠ [])) := by
  refine ⟨?_, bestWindow_nil_iff _ _ _, ?_⟩
  · unfold findMostRelevantSection
    dsimp only
    split
    · rw [List.length_take]
      exact min_le_left _ _
    · by_cases hb : (bestWindow (goFields (goToLower q)) (paragraphsOf content)
          maxLength).2 = []
      · rw [hb]
        exact Nat.zero_le _
      · exact bestWindow_length_le _ _ _ hb
  · intro hng hlen
    have hb : (bestWindow (goFields (goToLower q)) (paragraphsOf content)
        maxLength).2 = [] := (bestWindow_nil_iff _ _ _).mpr hng
    have hcond : ((bestWindow (goFields (goToLower q)) (paragraphsOf content)
        maxLength).2 = [] && decide (maxLength < content.length)) = true := by
      simp [hb, hlen]
    constructor
    · unfold findMostRelevantSection
      dsimp only
      rw [if_pos hcond]
    · intro hpos
      unfold findMostRelevantSection
      dsimp only
      rw [if_pos hcond]
      intro htake
      rcases List.take_eq_nil_iff.mp htake with h0 | h0
      · omega
      · rw [h0] at hlen
        simp at hlen

/-- C3 (counterexample): at `maxLength = 0` the fallback branch is taken
(no window fits and scores, and the content is longer than `maxLength`) yet
the returned leading characters are empty, contradicting the claimed
non-emptiness of the fallback result. -/
theorem bestSection_fallback_can_be_empty :
    noGoodWindow (goFields (goToLower ( "xyz".toList))) (paragraphsOf ( "abc".toList)) 0 = true ∧
    0 < ( "abc".toList).length ∧
    findMostRelevantSection ( "abc".toList) ( "xyz".toList) 0 = [] :=
  ⟨by decide, by decide, by decide⟩

theorem uploadEntry_src_nil {li : Str} {fc : Str × Str}
    (h : (uploadEntry li fc).1 = []) : (uploadEntry li fc).2 = [] := by
  unfold uploadEntry at h ⊢
  by_cases hs : shouldIncludeUpload li fc.2 = true
  · rw [if_pos hs] at h
    exfalso
    have hlen := congrArg List.length h
    have h18 : 0 < ( "From User Upload (".toList).length := by decide
    simp only [List.length_append, List.length_nil] at hlen
    omega
  · rw [if_neg hs]

theorem uploadTier_src_nil (db : KnowledgeDB) (li : Str)
    (h : (uploadTier db li).1 = []) : (uploadTier db li).2 = [] := by
  unfold uploadTier tierOf at h ⊢
  dsimp only at h ⊢
  rw [List.flatten_eq_nil_iff] at h ⊢
  intro l hl
  obtain ⟨fc, hfc, rfl⟩ := List.mem_map.mp hl
  exact uploadEntry_src_nil (h _ (List.mem_map_of_mem _ hfc))

/-- C6: every citation contributed by the user-upload tier precedes every
citation contributed by any later tier: the returned source list is the
upload-tier citations followed by a (possibly empty) remainder. -/
theorem upload_sources_first (db : KnowledgeDB) (q : Str) :
    ∃ rest, (buildEngineeringContext db q).2 =
      (uploadTier db (goToLower q)).2 ++ rest := by
  unfold buildEngineeringContext
  dsimp only
  split
  · unfold technicalPath
    dsimp only
    split
    · simp only [List.append_assoc]
      exact ⟨_, rfl⟩
    · simp only [List.append_assoc]
      exact ⟨_, rfl⟩
  · unfold generalPath
    dsimp only
    split
    · next hlen =>
      have h0 : (uploadTier db (goToLower q)).1 = [] :=
        (List.append_eq_nil.mp (List.length_eq_zero.mp hlen)).1
      exact ⟨[], by simp [uploadTier_src_nil db _ h0]⟩
    · exact ⟨_, rfl⟩

def emptyDB : KnowledgeDB := {}

/-- The long troubleshooting step used to overflow the 1500-character cap. -/
def c1LongStep : Str := List.replicate 81 'x'

def c1ErrorCode : ErrorCode :=
  { code := "E1".toList, description := "communication failure".toList,
    category := [], severity := [],
    troubleshootingSteps := List.replicate 17 c1LongStep,
    relatedComponents := [ "error".toList], documentationReference := [] }

def c1DB : KnowledgeDB := { errorCodes := [c1ErrorCode] }

set_option maxRecDepth 7000 in
/-- C1 (counterexample): on a technical query whose matched error code emits
more than 1500 characters, the returned text is strictly longer than 1500
characters (the truncation notice is appended after the cut at 1500), so the
output is not bounded by 1500. -/
theorem buildContext_can_exceed_1500 :
    1500 < (buildEngineeringContext c1DB ( "error".toList)).1.length := by decide

/-- C1 (amended): on the technical path the global cap bounds the returned
text by 1500 plus the length of the fixed truncation notice (42 characters),
and whenever the result exceeds 1500 characters it ends with the notice.
(The general path returns before the cap and is not bounded by it.) -/
theorem technical_context_cap (db : KnowledgeDB) (q : Str)
    (hq : isTechnicalQuery (goToLower q) = true) :
    (buildEngineeringContext db q).1.length ≤ 1500 + truncationMarker.length ∧
    (1500 < (buildEngineeringContext db q).1.length →
      truncationMarker <:+ (buildEngineeringContext db q).1) := by
  have hcap : ∀ ctx : Str, (applyCap ctx).length ≤ 1500 + truncationMarker.length ∧
      (1500 < (applyCap ctx).length → truncationMarker <:+ applyCap ctx) := by
    intro ctx
    unfold applyCap
    split
    · constructor
      · rw [List.length_append, List.length_take]
        have hmin : min 1500 ctx.length ≤ 1500 := min_le_left _ _
        omega
      · intro _
        exact List.suffix_append _ _
    · next hle =>
      refine ⟨by omega, fun hgt => absurd hgt (by omega)⟩
  have hbe : (buildEngineeringContext db q).1 =
      (technicalPath db (goToLower q) (uploadTier db (goToLower q)).1
        (uploadTier db (goToLower q)).2).1 := by
    unfold buildEngineeringContext
    dsimp only
    rw [if_pos hq]
  have htp : ∀ ctx0 src0, ∃ c,
      (technicalPath db (goToLower q) ctx0 src0).1 = applyCap c := by
    intro ctx0 src0
    unfold technicalPath
    dsimp only
    split
    · exact ⟨_, rfl⟩
    · exact ⟨_, rfl⟩
  obtain ⟨c, hc⟩ := htp (uploadTier db (goToLower q)).1 (uploadTier db (goToLower q)).2
  rw [hbe, hc]
  exact hcap c

/-- Witness for C1 (amended) at the overflowing database and query. -/
theorem technical_context_cap_witness :
    isTechnicalQuery (goToLower ( "error".toList)) = true ∧
    ((buildEngineeringContext c1DB ( "error".toList)).1.length ≤
        1500 + truncationMarker.length ∧
      (1500 < (buildEngineeringContext c1DB ( "error".toList)).1.length →
        truncationMarker <:+ (buildEngineeringContext c1DB ( "error".toList)).1)) :=
  ⟨by decide, technical_context_cap c1DB ( "error".toList) (by decide)⟩

def c2DB : KnowledgeDB := { userUploads := [( "f".toList, "error".toList)] }

/-- C2 (counterexample): the upload `"error"` (5 characters) contains the
technical keyword `"error"`, and the query is longer than 10 characters, so
the claimed inclusion condition holds; but the code guards the keyword test
by `content length > 50`, so nothing is included and the assembler falls
through to the fixed no-context reply with no sources. -/
theorem upload_keyword_without_length_not_included :
    (((goTrimSpace (goToLower ( "please explain carefully".toList))).length ≤ 10) ∨
      (∃ w ∈ goFields (goToLower ( "please explain carefully".toList)),
        2 < w.length ∧ w <:+: goToLower ( "error".toList)) ∨
      (∃ k ∈ uploadTechKeywords, k <:+: goToLower ( "error".toList))) ∧
    buildEngineeringContext c2DB ( "please explain carefully".toList) =
      (outsideExpertiseMessage ( "please explain carefully".toList), []) := by
  constructor
  · right; right
    exact ⟨ "error".toList, by decide, by decide⟩
  · decide

/-- C2 (amended): an upload is included exactly when the trimmed lower-cased
query has length at most 10, or the content is longer than 50 characters and
some query token of length greater than 2 occurs in it or it contains one of
the fixed technical keywords; included content is the header plus the content
truncated to 800 characters with an ellipsis marker. -/
theorem upload_inclusion_rule (q f c : Str) :
    ((uploadEntry (goToLower q) (f, c)).2 ≠ [] ↔
      ((goTrimSpace (goToLower q)).length ≤ 10 ∨
        (50 < c.length ∧
          ((∃ w ∈ goFields (goToLower q), 2 < w.length ∧ w <:+: goToLower c) ∨
           (∃ k ∈ uploadTechKeywords, k <:+: goToLower c))))) ∧
    ((uploadEntry (goToLower q) (f, c)).2 ≠ [] →
      (uploadEntry (goToLower q) (f, c)).1 =
        "From User Upload (".toList ++ displayNameOf f ++ "):\n".toList ++
          (if 800 < c.length then c.take 800 ++ "...".toList ++ "\n\n".toList
           else c ++ "\n\n".toList)) := by
  have hne : (uploadEntry (goToLower q) (f, c)).2 ≠ [] ↔
      shouldIncludeUpload (goToLower q) c = true := by
    unfold uploadEntry
    split
    · next h => simp [h]
    · next h => simp [h]
  have hinc : shouldIncludeUpload (goToLower q) c = true ↔
      ((goTrimSpace (goToLower q)).length ≤ 10 ∨
        (50 < c.length ∧
          ((∃ w ∈ goFields (goToLower q), 2 < w.length ∧ w <:+: goToLower c) ∨
           (∃ k ∈ uploadTechKeywords, k <:+: goToLower c)))) := by
    unfold shouldIncludeUpload
    split
    · next h10 => simp [h10]
    · next h10 =>
      split
      · next h50 =>
        simp only [Bool.or_eq_true, List.any_eq_true, Bool.and_eq_true,
          decide_eq_true_eq, goContains_iff]
        constructor
        · rintro (⟨w, hw, hwl, hwc⟩ | ⟨k, hk, hkc⟩)
          · exact Or.inr ⟨h50, Or.inl ⟨w, hw, hwl, hwc⟩⟩
          · exact Or.inr ⟨h50, Or.inr ⟨k, hk, hkc⟩⟩
        · rintro (h | ⟨_, (⟨w, hw, hwl, hwc⟩ | ⟨k, hk, hkc⟩)⟩)
          · exact absurd h h10
          · exact Or.inl ⟨w, hw, hwl, hwc⟩
          · exact Or.inr ⟨k, hk, hkc⟩
      · next h50 =>
        simp only [Bool.false_eq_true, false_iff]
        rintro (h | ⟨h, _⟩)
        · exact h10 h
        · exact h50 h
  refine ⟨hne.trans hinc, fun h2 => ?_⟩
  have hs := hne.mp h2
  unfold uploadEntry
  rw [if_pos hs]

def c4DB : KnowledgeDB := { userUploads := [( "f".toList, "notes".toList)] }

/-- C4 (counterexample): on the general query `"hello"` with one uploaded
file and no text documents at all (so no document can qualify), the assembler
returns the upload context with a non-empty source list instead of the fixed
"outside expertise" message with an empty source list. -/
theorem general_query_upload_bypasses_message :
    isTechnicalQuery (goToLower ( "hello".toList)) = false ∧
    c4DB.textFiles = [] ∧
    (buildEngineeringContext c4DB ( "hello".toList)).2 =
      [ "User Upload: f".toList] :=
  ⟨by decide, rfl, by decide⟩

/-- C4 (amended): on a general query a text document is included only if the
2-token bar is met, and when no document meets it and the user-upload tier
contributed nothing, the assembler returns the fixed "outside expertise"
message with an empty source list. -/
theorem general_path_spec (db : KnowledgeDB) (q : Str)
    (hgen : isTechnicalQuery (goToLower q) = false)
    (hup : (uploadTier db (goToLower q)).1 = []) :
    (∀ fc ∈ db.textFiles, generalIncluded (goToLower q) fc.2 = false →
      generalEntry db (goToLower q) fc = ([], [])) ∧
    ((∀ fc ∈ db.textFiles, generalIncluded (goToLower q) fc.2 = false) →
      buildEngineeringContext db q = (outsideExpertiseMessage q, [])) := by
  constructor
  · intro fc _ hni
    simp [generalEntry, hni]
  · intro hall
    have hg : (generalTier db (goToLower q)).1 = [] := by
      unfold generalTier tierOf
      dsimp only
      rw [List.flatten_eq_nil_iff]
      intro l hl
      obtain ⟨fc, hfc, rfl⟩ := List.mem_map.mp hl
      simp [generalEntry, hall fc hfc]
    unfold buildEngineeringContext
    dsimp only
    rw [if_neg (by simp [hgen])]
    unfold generalPath
    dsimp only
    rw [hup, hg]
    simp

/-- Witness for C4 (amended) on the empty database and the query `"hello"`. -/
theorem general_path_spec_witness :
    isTechnicalQuery (goToLower ( "hello".toList)) = false ∧
    (uploadTier emptyDB (goToLower ( "hello".toList))).1 = [] ∧
    buildEngineeringContext emptyDB ( "hello".toList) =
      (outsideExpertiseMessage ( "hello".toList), []) :=
  ⟨by decide, by decide,
    (general_path_spec emptyDB ( "hello".toList) (by decide) (by decide)).2
      (fun fc hfc => absurd hfc (List.not_mem_nil fc))⟩

/-- The sentinel `extractWordContent` produces for a failed docx read. -/
def c5Sentinel : Str :=
  extractWordContent ( "testData/a.docx".toList) (.error ( "open failed".toList))

def c5DB : KnowledgeDB :=
  { wordContents := [( "a.docx".toList, c5Sentinel)],
    filePaths := [( "a.docx".toList, "testData/a.docx".toList)] }

/-- C5 (code bug): the word tier's skip test looks for `"Failed to extract"`
and `"not supported"`, but the read-failure sentinel that `extractWordContent`
actually produces starts with `"Error reading Word document"`, so it is not
skipped and appears verbatim in the assembled context. -/
theorem word_sentinel_not_skipped :
    goContains (buildEngineeringContext c5DB ( "system".toList)).1 c5Sentinel = true ∧
    goContains c5Sentinel ( "Error reading Word document".toList) = true ∧
    goContains c5Sentinel ( "Failed to extract".toList) = false ∧
    goContains c5Sentinel ( "not supported".toList) = false :=
  ⟨by decide, by decide, by decide, by decide⟩

end Beanbot
